import Mathlib

/-!
# CrossEntropy_view: the cross-hair handler and the random-guess line

A shallow embedding of `src/main.cpp`.

* `double` values are elements of an arbitrary linearly ordered field `α`
  with a floor function; every theorem below instantiates `α` with the real
  numbers. `updateRandom` and `mouseMoveEvent` evaluate the program's
  expressions in exact (unrounded) arithmetic. `updateRandomDouble` and
  `mouseMoveEventDouble` are the same two functions with the result of every
  `double` operation rounded by `roundDouble` (IEEE 754 binary64, round to
  nearest, ties to even); they decide the statements in which rounding
  matters.
* `std::exp` and `std::log` come from `<cmath>`, not from this repository.
  They are parameters of the embedding. The theorems in exact arithmetic
  instantiate them with `Real.exp` and `Real.log`; the theorems in `double`
  arithmetic take any functions within a stated distance of `Real.exp` and
  `Real.log`, or the correctly rounded values at the arguments concerned.
* `int` values are integers. The only integer operation is `N - 1`, which
  cannot overflow for any `int` value `N ≥ 2`.
* `chart()->mapToValue` is a chart-widget service: the x-coordinate it
  returns is the input `raw` of `mouseMoveEvent`. The data point handed to
  `chart()->mapToPosition` is recorded in the result.
* Only the chart content that the theorems read is kept in the window state:
  the dynamic series `m_randomLine` and the two axis ranges.
-/

namespace CrossEntropyView

variable {α : Type} [LinearOrderedField α]

/-! ## Data model -/

/-- A chart data point, `QPointF`. -/
structure QPointF (α : Type) where
  x : α
  y : α
deriving DecidableEq, Repr

/-- The part of a `QSpinBox` the program relies on: its range and its value. -/
structure QSpinBox where
  minimum : ℤ
  maximum : ℤ
  value : ℤ
deriving DecidableEq, Repr

/-- The range of a `QValueAxis`, as fixed by `setRange`. -/
structure QValueAxis (α : Type) where
  min : α
  max : α
deriving DecidableEq, Repr

/-- The state of `MainWindow`: the class count `m_numClasses`, the points of
the dynamic series `m_randomLine`, the spinner, and the two axes. -/
structure MainWindow (α : Type) where
  m_numClasses : ℤ
  m_randomLine : List (QPointF α)
  spin : QSpinBox
  axisX : QValueAxis α
  axisY : QValueAxis α
deriving DecidableEq, Repr

/-- What one call of `InteractiveView::mouseMoveEvent` computes: the local
variables `x`, `p` and `others_avg`, the data point `(x, p)` whose pixel
position the marker is moved to, and the three numbers of the tooltip, each a
count of ten-thousandths (the text `QString::number(v, 'f', 4)`). -/
structure CrossHair (α : Type) where
  x : α
  p : α
  marker : QPointF α
  others_avg : α
  tipLoss : ℤ
  tipTargetProb : ℤ
  tipOthersAvg : ℤ
deriving DecidableEq, Repr

/-! ## Library services -/

/-- The function `std::clamp(v, lo, hi)` of `<algorithm>`:
`(v < lo) ? lo : (hi < v) ? hi : v`. -/
def clamp (v lo hi : α) : α :=
  if v < lo then lo else if hi < v then hi else v

/-- The function `qBound(lo, v, hi)`, by which a `QSpinBox` keeps its value
inside its range. -/
def qBound (lo v hi : ℤ) : ℤ :=
  max lo (min hi v)

/-- Modelled from the spec: `QString::number(v, 'f', 4)` is a Qt service; the
spec has each tooltip value "formatted to 4 decimal places". The result is the
number of ten-thousandths nearest to `v`, so the text shown is this integer
with the decimal point four places from the right. An exact tie is rounded
up; no value considered below is a tie. -/
def number_f4 [FloorRing α] (v : α) : ℤ :=
  round (v * 10000)

/-- Modelled from the spec: `QSpinBox::setValue`, also the path of a user
edit. The spec has the "input range enforced by the control widget itself":
the requested value is bounded to the range, and `valueChanged` is emitted
(`some` of the new value) only when the value really changes. -/
def QSpinBox.setValue (s : QSpinBox) (v : ℤ) : QSpinBox × Option ℤ :=
  let b := qBound s.minimum v s.maximum
  if b = s.value then (s, none) else ({ s with value := b }, some b)

/-- Modelled from the spec: `QSpinBox::setRange`, which stores the range and
bounds the current value to it. At the only call no slot is connected yet, so
the signal is not recorded. -/
def QSpinBox.setRange (s : QSpinBox) (lo hi : ℤ) : QSpinBox :=
  { minimum := lo, maximum := hi, value := qBound lo s.value hi }

/-- A freshly constructed `QSpinBox`: range 0 to 99, value 0. -/
def QSpinBox.new : QSpinBox :=
  { minimum := 0, maximum := 99, value := 0 }

/-! ## The program -/

/-- The slot `MainWindow::updateRandom(int n)`. -/
def updateRandom (log : α → α) (n : ℤ) (w : MainWindow α) : MainWindow α :=
  let lx : α := -log (1 / (n : α))
  { w with
    m_numClasses := n
    m_randomLine := (([] : List (QPointF α)) ++ [⟨lx, 0⟩]) ++ [⟨lx, 1⟩] }

/-- The handler `InteractiveView::mouseMoveEvent`, with `raw` the
x-coordinate of `chart()->mapToValue(event->pos())` and `N` the value read
through `m_N`. -/
def mouseMoveEvent [FloorRing α] (exp : α → α) (N : ℤ) (raw : α) :
    CrossHair α :=
  let x : α := clamp raw 0 5
  let p : α := exp (-x)
  let others_avg : α := (1 - p) / ((N - 1 : ℤ) : α)
  { x := x
    p := p
    marker := ⟨x, p⟩
    others_avg := others_avg
    tipLoss := number_f4 x
    tipTargetProb := number_f4 p
    tipOthersAvg := number_f4 others_avg }

/-- The constructor `MainWindow::MainWindow()`: `m_numClasses = 2`, the
spinner with range 2 to 100000 and value `m_numClasses`, an empty
`m_randomLine`, the axis ranges, and then `updateRandom(m_numClasses)`. -/
def MainWindow.new (log : α → α) : MainWindow α :=
  let m_numClasses : ℤ := 2
  let spin := ((QSpinBox.new.setRange 2 100000).setValue m_numClasses).1
  updateRandom log m_numClasses
    { m_numClasses := m_numClasses
      m_randomLine := []
      spin := spin
      axisX := ⟨0, 5⟩
      axisY := ⟨0, 1⟩ }

/-- What the user can do to the window. -/
inductive Event (α : Type) where
  | spinEdit (v : ℤ)
  | mouseMove (raw : α)
deriving DecidableEq, Repr

/-- One turn of the event loop. A spinner edit goes through the spinner; when
it emits `valueChanged(n)`, the connected slot `updateRandom(n)` runs. A
pointer move runs `mouseMoveEvent` on the current `m_numClasses` and leaves
the window state as it is. -/
def step [FloorRing α] (exp log : α → α) (w : MainWindow α) :
    Event α → MainWindow α × Option (CrossHair α)
  | .spinEdit v =>
    match w.spin.setValue v with
    | (s, some n) => (updateRandom log n { w with spin := s }, none)
    | (s, none) => ({ w with spin := s }, none)
  | .mouseMove raw => (w, some (mouseMoveEvent exp w.m_numClasses raw))

/-- The window state after a sequence of events, starting from the
constructor. -/
def run [FloorRing α] (exp log : α → α) (es : List (Event α)) :
    MainWindow α :=
  es.foldl (fun w e => (step exp log w e).1) (MainWindow.new log)

/-! ## The program in `double` arithmetic -/

/-- Rounding to the nearest integer, a tie going to the even neighbour. -/
def roundEven [FloorRing α] (r : α) : ℤ :=
  if r - ⌊r⌋ < 1 / 2 then ⌊r⌋
  else if 1 / 2 < r - ⌊r⌋ then ⌊r⌋ + 1
  else if ⌊r⌋ % 2 = 0 then ⌊r⌋ else ⌊r⌋ + 1

/-- The exponent of the unit in the last place of the binary64 numbers around
`q`: 52 below the binary exponent of `q`, which is taken to be at least
-1022 (below that, binary64 numbers are subnormal and share one spacing). -/
def ulpExponent [FloorRing α] (q : α) : ℤ :=
  max (Int.log 2 |q|) (-1022) - 52

/-- The `double` that an arithmetic operation returns when its exact result
is `q`: the binary64 number nearest to `q`, ties to even (the default IEEE
754 rounding). Overflow to infinity is not modelled: every value the program
rounds has magnitude at most 1. -/
def roundDouble [FloorRing α] (q : α) : α :=
  (roundEven (q / 2 ^ ulpExponent q) : α) * 2 ^ ulpExponent q

/-- The slot `MainWindow::updateRandom(int n)` in `double` arithmetic: the
quotient `1.0 / n` is rounded; converting the `int` and negating are exact;
`log` stands for `std::log` and returns a `double`. -/
def updateRandomDouble [FloorRing α] (log : α → α) (n : ℤ)
    (w : MainWindow α) : MainWindow α :=
  let lx : α := -log (roundDouble (1 / (n : α)))
  { w with
    m_numClasses := n
    m_randomLine := (([] : List (QPointF α)) ++ [⟨lx, 0⟩]) ++ [⟨lx, 1⟩] }

/-- The handler `InteractiveView::mouseMoveEvent` in `double` arithmetic: the
difference `1.0 - p` and the quotient by `(double)(N - 1)` are rounded;
clamping, negating and converting the `int` are exact; `exp` stands for
`std::exp` and returns a `double`. -/
def mouseMoveEventDouble [FloorRing α] (exp : α → α) (N : ℤ) (raw : α) :
    CrossHair α :=
  let x : α := clamp raw 0 5
  let p : α := exp (-x)
  let others_avg : α :=
    roundDouble (roundDouble (1 - p) / ((N - 1 : ℤ) : α))
  { x := x
    p := p
    marker := ⟨x, p⟩
    others_avg := others_avg
    tipLoss := number_f4 x
    tipTargetProb := number_f4 p
    tipOthersAvg := number_f4 others_avg }

/-- The invariant of the event loop: the spinner keeps the range 2 to 100000
and shows `m_numClasses`, which lies in that range; the dynamic line is the
one `updateRandom` builds for `m_numClasses`; the axes keep their ranges. -/
def Inv (log : α → α) (w : MainWindow α) : Prop :=
  w.spin.minimum = 2 ∧ w.spin.maximum = 100000 ∧
  w.spin.value = w.m_numClasses ∧
  2 ≤ w.m_numClasses ∧ w.m_numClasses ≤ 100000 ∧
  w.m_randomLine = [⟨-log (1 / (w.m_numClasses : α)), 0⟩,
    ⟨-log (1 / (w.m_numClasses : α)), 1⟩] ∧
  w.axisX = ⟨0, 5⟩ ∧ w.axisY = ⟨0, 1⟩

/-! ## Auxiliary facts -/

section Auxiliary

theorem clamp_eq_max_min (v lo hi : α) (h : lo ≤ hi) :
    clamp v lo hi = max lo (min v hi) := by
  unfold clamp
  split_ifs with h1 h2
  · rw [max_eq_left]
    exact (min_le_left v hi).trans h1.le
  · rw [min_eq_right h2.le, max_eq_right h]
  · rw [min_eq_left (not_lt.1 h2), max_eq_right (not_lt.1 h1)]

theorem clamp_mem (v lo hi : α) (h : lo ≤ hi) :
    lo ≤ clamp v lo hi ∧ clamp v lo hi ≤ hi := by
  unfold clamp
  split_ifs with h1 h2
  · exact ⟨le_refl lo, h⟩
  · exact ⟨h, le_refl hi⟩
  · exact ⟨not_lt.1 h1, not_lt.1 h2⟩

theorem clamp_eq_self_iff (v lo hi : α) (h : lo ≤ hi) :
    clamp v lo hi = v ↔ lo ≤ v ∧ v ≤ hi := by
  constructor
  · intro e
    have m := clamp_mem v lo hi h
    rw [e] at m
    exact m
  · rintro ⟨h1, h2⟩
    unfold clamp
    rw [if_neg (not_lt.2 h1), if_neg (not_lt.2 h2)]

theorem mouseMoveEvent_x [FloorRing α] (exp : α → α) (N : ℤ) (raw : α) :
    (mouseMoveEvent exp N raw).x = clamp raw 0 5 := rfl

theorem mouseMoveEvent_p [FloorRing α] (exp : α → α) (N : ℤ) (raw : α) :
    (mouseMoveEvent exp N raw).p = exp (-clamp raw 0 5) := rfl

theorem mouseMoveEvent_others_avg [FloorRing α] (exp : α → α) (N : ℤ) (raw : α) :
    (mouseMoveEvent exp N raw).others_avg
      = (1 - exp (-clamp raw 0 5)) / ((N - 1 : ℤ) : α) := rfl

theorem clamp_zero_five_mem (raw : α) :
    0 ≤ clamp raw 0 5 ∧ clamp raw 0 5 ≤ 5 :=
  clamp_mem raw 0 5 (by norm_num)

theorem updateRandom_randomLine (log : α → α) (n : ℤ) (w : MainWindow α) :
    (updateRandom log n w).m_randomLine
      = [⟨-log (1 / (n : α)), 0⟩, ⟨-log (1 / (n : α)), 1⟩] := rfl

theorem updateRandom_numClasses (log : α → α) (n : ℤ) (w : MainWindow α) :
    (updateRandom log n w).m_numClasses = n := rfl

theorem neg_log_one_div (n : ℤ) : -Real.log (1 / (n : ℝ)) = Real.log n := by
  rw [one_div, Real.log_inv, neg_neg]

theorem exp_five_gt : (148.4 : ℝ) < Real.exp 5 := by
  have e : Real.exp 5 = Real.exp 1 ^ 5 := by
    rw [← Real.exp_nat_mul]; norm_num
  rw [e]
  calc (148.4 : ℝ) < 2.7182818283 ^ 5 := by norm_num
    _ < Real.exp 1 ^ 5 :=
      pow_lt_pow_left₀ Real.exp_one_gt_d9 (by norm_num) (by norm_num)

theorem exp_five_lt : Real.exp 5 < (148.5 : ℝ) := by
  have e : Real.exp 5 = Real.exp 1 ^ 5 := by
    rw [← Real.exp_nat_mul]; norm_num
  rw [e]
  calc Real.exp 1 ^ 5 < 2.7182818286 ^ 5 :=
      pow_lt_pow_left₀ Real.exp_one_lt_d9 (Real.exp_pos 1).le (by norm_num)
    _ < 148.5 := by norm_num

theorem log_five_fourths_near : |Real.log (5 / 4) - 0.2231435| ≤ 1 / 10 ^ 6 := by
  have t : |(5⁻¹ : ℝ)| = 5⁻¹ := by rw [abs_of_pos]; norm_num
  have z := Real.abs_log_sub_add_sum_range_le
    (show |(5⁻¹ : ℝ)| < 1 by rw [t]; norm_num) 9
  rw [t] at z
  have e : Real.log (1 - 5⁻¹) = -Real.log (5 / 4) := by
    rw [← Real.log_inv]; norm_num
  rw [e] at z
  simp only [Finset.sum_range_succ, Finset.sum_range_zero] at z
  norm_num at z
  rw [abs_le] at z ⊢
  constructor <;> linarith [z.1, z.2]

theorem log_ten_eq : Real.log 10 = 3 * Real.log 2 + Real.log (5 / 4) := by
  have h : (10 : ℝ) = 2 ^ 3 * (5 / 4) := by norm_num
  rw [h, Real.log_mul (by norm_num) (by norm_num), Real.log_pow]; norm_num

theorem log_hundred_thousand_eq : Real.log 100000 = 5 * Real.log 10 := by
  have h : (100000 : ℝ) = 10 ^ 5 := by norm_num
  rw [h, Real.log_pow]; norm_num

theorem log_hundred_thousand_bounds :
    (11.51291 : ℝ) < Real.log 100000 ∧ Real.log 100000 < 11.51294 := by
  have h := abs_le.1 log_five_fourths_near
  have a := Real.log_two_gt_d9
  have b := Real.log_two_lt_d9
  rw [log_hundred_thousand_eq, log_ten_eq]
  constructor <;> norm_num at h a b ⊢ <;> linarith [h.1, h.2]

/-- The text of `number_f4 v` is `k` ten-thousandths as soon as `v` is within
half a ten-thousandth of it. -/
theorem number_f4_eq (v : ℝ) (k : ℤ)
    (lo : (k : ℝ) - 1 / 2 ≤ v * 10000) (hi : v * 10000 < (k : ℝ) + 1 / 2) :
    number_f4 v = k := by
  unfold number_f4
  rw [round_eq, Int.floor_eq_iff]
  constructor <;> linarith

theorem qBound_mem (lo v hi : ℤ) (h : lo ≤ hi) :
    lo ≤ qBound lo v hi ∧ qBound lo v hi ≤ hi := by
  unfold qBound
  exact ⟨le_max_left _ _, max_le h (min_le_left _ _)⟩

theorem qBound_eq_self (lo v hi : ℤ) (h1 : lo ≤ v) (h2 : v ≤ hi) :
    qBound lo v hi = v := by
  unfold qBound
  rw [min_eq_right h2, max_eq_right h1]

theorem inv_new (log : α → α) : Inv log (MainWindow.new log) := by
  refine ⟨rfl, rfl, ?_, ?_, ?_, rfl, rfl, rfl⟩
  · simp [MainWindow.new, updateRandom, QSpinBox.setValue, QSpinBox.setRange,
      QSpinBox.new, qBound]
  · simp [MainWindow.new, updateRandom]
  · simp [MainWindow.new, updateRandom]

theorem inv_step [FloorRing α] (exp log : α → α) (w : MainWindow α)
    (e : Event α) (h : Inv log w) : Inv log (step exp log w e).1 := by
  obtain ⟨hmin, hmax, hval, h2, h5, hline, hx, hy⟩ := h
  cases e with
  | mouseMove raw => exact ⟨hmin, hmax, hval, h2, h5, hline, hx, hy⟩
  | spinEdit v =>
    have hb := qBound_mem w.spin.minimum v w.spin.maximum
      (by rw [hmin, hmax]; decide)
    rw [hmin, hmax] at hb
    by_cases hc : qBound w.spin.minimum v w.spin.maximum = w.spin.value
    · have e1 : step exp log w (.spinEdit v) = ({ w with spin := w.spin }, none) := by
        simp [step, QSpinBox.setValue, hc]
      rw [e1]
      exact ⟨hmin, hmax, hval, h2, h5, hline, hx, hy⟩
    · have e1 : step exp log w (.spinEdit v)
          = (updateRandom log (qBound w.spin.minimum v w.spin.maximum)
              { w with spin := { w.spin with
                  value := qBound w.spin.minimum v w.spin.maximum } }, none) := by
        simp [step, QSpinBox.setValue, hc]
      rw [e1]
      refine ⟨hmin, hmax, rfl, ?_, ?_, rfl, hx, hy⟩
      · rw [updateRandom_numClasses, hmin, hmax]; exact hb.1
      · rw [updateRandom_numClasses, hmin, hmax]; exact hb.2

theorem inv_foldl [FloorRing α] (exp log : α → α) (es : List (Event α)) :
    ∀ w : MainWindow α, Inv log w →
      Inv log (es.foldl (fun w e => (step exp log w e).1) w) := by
  induction es with
  | nil => intro w h; exact h
  | cons e es ih =>
    intro w h
    exact ih _ (inv_step exp log w e h)

theorem inv_run [FloorRing α] (exp log : α → α) (es : List (Event α)) :
    Inv log (run exp log es) :=
  inv_foldl exp log es _ (inv_new log)

theorem run_append_singleton [FloorRing α] (exp log : α → α)
    (es : List (Event α)) (e : Event α) :
    run exp log (es ++ [e]) = (step exp log (run exp log es) e).1 := by
  unfold run
  rw [List.foldl_append]
  rfl

/-- After a spinner edit to a value `n` of the range, the window is in the
state `updateRandom(n)` leaves: either the slot has just run, or the spinner
already showed `n` and the slot ran when it got there. -/
theorem step_spinEdit_in_range [FloorRing α] (exp log : α → α)
    (w : MainWindow α) (h : Inv log w) (n : ℤ) (h2 : 2 ≤ n) (h5 : n ≤ 100000) :
    (step exp log w (.spinEdit n)).1.m_numClasses = n ∧
    (step exp log w (.spinEdit n)).1.m_randomLine
      = [⟨-log (1 / (n : α)), 0⟩, ⟨-log (1 / (n : α)), 1⟩] := by
  have hi := inv_step exp log w (.spinEdit n) h
  obtain ⟨hmin, hmax, hval, -, -, -, -, -⟩ := h
  have hq : qBound w.spin.minimum n w.spin.maximum = n :=
    qBound_eq_self _ _ _ (by rw [hmin]; exact h2) (by rw [hmax]; exact h5)
  have hN : (step exp log w (.spinEdit n)).1.m_numClasses = n := by
    by_cases hc : n = w.spin.value
    · have hc1 : qBound w.spin.minimum n w.spin.maximum = w.spin.value :=
        hq.trans hc
      have e1 : step exp log w (.spinEdit n) = ({ w with spin := w.spin }, none) := by
        simp only [step, QSpinBox.setValue, hc1, if_true]
      rw [e1, hc, hval]
    · have e1 : step exp log w (.spinEdit n)
          = (updateRandom log n
              { w with spin := { w.spin with value := n } }, none) := by
        simp [step, QSpinBox.setValue, hq, hc]
      rw [e1]
      rfl
  refine ⟨hN, ?_⟩
  have hl := hi.2.2.2.2.2.1
  rw [hN] at hl
  exact hl

theorem exp_neg_five_bounds :
    (0.00673 : ℝ) < Real.exp (-5) ∧ Real.exp (-5) < 0.00674 := by
  have a := exp_five_gt
  have b := exp_five_lt
  have hpos := Real.exp_pos 5
  rw [Real.exp_neg]
  constructor
  · rw [lt_inv_comm₀ (by norm_num) hpos]
    exact lt_trans b (by norm_num)
  · rw [inv_lt_comm₀ hpos (by norm_num)]
    exact lt_trans (by norm_num) a

theorem exp_neg_clamp_bounds (raw : ℝ) :
    Real.exp (-5) ≤ Real.exp (-clamp raw 0 5) ∧
    Real.exp (-clamp raw 0 5) ≤ 1 := by
  obtain ⟨h0, h5⟩ := clamp_zero_five_mem raw
  constructor
  · exact Real.exp_le_exp.2 (by linarith)
  · exact Real.exp_le_one_iff.2 (by linarith)

theorem clamp_one : clamp (1 : ℝ) 0 5 = 1 :=
  (clamp_eq_self_iff 1 0 5 (by norm_num)).2 ⟨by norm_num, by norm_num⟩

theorem clamp_zero : clamp (0 : ℝ) 0 5 = 0 :=
  (clamp_eq_self_iff 0 0 5 (by norm_num)).2 ⟨by norm_num, by norm_num⟩

theorem log_le_five_iff (N : ℤ) (hN : 2 ≤ N) : Real.log N ≤ 5 ↔ N ≤ 148 := by
  have hpos : (0 : ℝ) < (N : ℝ) := by
    have h : (2 : ℝ) ≤ (N : ℝ) := by exact_mod_cast hN
    linarith
  rw [Real.log_le_iff_le_exp hpos]
  constructor
  · intro h
    have h1 : (N : ℝ) < 149 := by
      have b := exp_five_lt
      norm_num at b
      linarith
    have h2 : N < 149 := by exact_mod_cast h1
    linarith
  · intro h
    have h1 : (N : ℝ) ≤ 148 := by exact_mod_cast h
    have a := exp_five_gt
    norm_num at a
    linarith

theorem roundEven_abs_sub_le (r : ℝ) : |((roundEven r : ℤ) : ℝ) - r| ≤ 1 / 2 := by
  have hf := Int.floor_le r
  have hl := Int.lt_floor_add_one r
  unfold roundEven
  split_ifs with h1 h2 h3 <;> push_cast <;> rw [abs_le] <;> constructor <;> linarith

theorem roundEven_nonneg (r : ℝ) (h : 0 ≤ r) : 0 ≤ roundEven r := by
  have hf : 0 ≤ ⌊r⌋ := Int.floor_nonneg.2 h
  unfold roundEven
  split_ifs <;> omega

theorem roundEven_eq_of_near (r : ℝ) (m : ℤ) (h : |r - m| < 1 / 2) :
    roundEven r = m := by
  have hf := Int.floor_le r
  have hl := Int.lt_floor_add_one r
  obtain ⟨ha, hb⟩ := abs_lt.1 h
  unfold roundEven
  split_ifs with h1 h2 h3
  · have a1 : ((⌊r⌋ - m : ℤ) : ℝ) < 1 := by push_cast; linarith
    have a2 : (-1 : ℝ) < ((⌊r⌋ - m : ℤ) : ℝ) := by push_cast; linarith
    have b1 : ⌊r⌋ - m < 1 := by exact_mod_cast a1
    have b2 : -1 < ⌊r⌋ - m := by exact_mod_cast a2
    omega
  · have a1 : ((⌊r⌋ + 1 - m : ℤ) : ℝ) < 1 := by push_cast; linarith
    have a2 : (-1 : ℝ) < ((⌊r⌋ + 1 - m : ℤ) : ℝ) := by push_cast; linarith
    have b1 : ⌊r⌋ + 1 - m < 1 := by exact_mod_cast a1
    have b2 : -1 < ⌊r⌋ + 1 - m := by exact_mod_cast a2
    omega
  · exfalso
    have e : r - ⌊r⌋ = 1 / 2 := le_antisymm (not_lt.1 h2) (not_lt.1 h1)
    have a1 : ((⌊r⌋ - m : ℤ) : ℝ) < 0 := by push_cast; linarith
    have a2 : (-1 : ℝ) < ((⌊r⌋ - m : ℤ) : ℝ) := by push_cast; linarith
    have b1 : ⌊r⌋ - m < 0 := by exact_mod_cast a1
    have b2 : -1 < ⌊r⌋ - m := by exact_mod_cast a2
    omega
  · exfalso
    have e : r - ⌊r⌋ = 1 / 2 := le_antisymm (not_lt.1 h2) (not_lt.1 h1)
    have a1 : ((⌊r⌋ - m : ℤ) : ℝ) < 0 := by push_cast; linarith
    have a2 : (-1 : ℝ) < ((⌊r⌋ - m : ℤ) : ℝ) := by push_cast; linarith
    have b1 : ⌊r⌋ - m < 0 := by exact_mod_cast a1
    have b2 : -1 < ⌊r⌋ - m := by exact_mod_cast a2
    omega

theorem two_zpow_pos (k : ℤ) : (0 : ℝ) < 2 ^ k := zpow_pos (by norm_num) k

theorem roundDouble_zero : roundDouble (0 : ℝ) = 0 := by
  unfold roundDouble
  rw [zero_div, roundEven_eq_of_near 0 0 (by norm_num)]
  simp

theorem ulp_le (q : ℝ) (hq : q ≠ 0) :
    (2 : ℝ) ^ ulpExponent q ≤ |q| / 2 ^ 52 + 1 / 2 ^ 1074 := by
  have hpos : 0 < |q| := abs_pos.2 hq
  have hlog : (2 : ℝ) ^ Int.log 2 |q| ≤ |q| := by
    have h := Int.zpow_log_le_self (b := 2) (by norm_num) hpos
    simpa using h
  unfold ulpExponent
  rcases le_total (Int.log 2 |q|) (-1022) with h | h
  · rw [max_eq_right h]
    have e : (2 : ℝ) ^ ((-1022 : ℤ) - 52) = 1 / 2 ^ 1074 := by norm_num [zpow_neg]
    rw [e]
    have : 0 ≤ |q| / 2 ^ 52 := by positivity
    linarith
  · rw [max_eq_left h, zpow_sub₀ (by norm_num)]
    have e : (2 : ℝ) ^ (52 : ℤ) = 2 ^ 52 := by norm_num
    rw [e]
    have h1 : (2 : ℝ) ^ Int.log 2 |q| / 2 ^ 52 ≤ |q| / 2 ^ 52 :=
      div_le_div_of_nonneg_right hlog (by positivity)
    have : (0 : ℝ) ≤ 1 / 2 ^ 1074 := by positivity
    linarith

theorem roundDouble_abs_sub_le (q : ℝ) :
    |roundDouble q - q| ≤ |q| / 2 ^ 53 + 1 / 2 ^ 1075 := by
  by_cases hq : q = 0
  · rw [hq, roundDouble_zero]
    simp
  · have hu := two_zpow_pos (ulpExponent q)
    have hr := roundEven_abs_sub_le (q / 2 ^ ulpExponent q)
    have e : roundDouble q - q
        = (((roundEven (q / 2 ^ ulpExponent q) : ℤ) : ℝ) - q / 2 ^ ulpExponent q)
          * 2 ^ ulpExponent q := by
      unfold roundDouble
      field_simp
    rw [e, abs_mul, abs_of_pos hu]
    have h1 := ulp_le q hq
    have h2 : |((roundEven (q / 2 ^ ulpExponent q) : ℤ) : ℝ) - q / 2 ^ ulpExponent q|
        * 2 ^ ulpExponent q ≤ 1 / 2 * 2 ^ ulpExponent q :=
      mul_le_mul_of_nonneg_right hr hu.le
    have h3 : |q| / 2 ^ 53 + 1 / 2 ^ 1075 = 1 / 2 * (|q| / 2 ^ 52 + 1 / 2 ^ 1074) := by
      ring
    rw [h3]
    linarith

theorem roundDouble_nonneg (q : ℝ) (h : 0 ≤ q) : 0 ≤ roundDouble q := by
  unfold roundDouble
  have hu := two_zpow_pos (ulpExponent q)
  have hr : 0 ≤ roundEven (q / 2 ^ ulpExponent q) :=
    roundEven_nonneg _ (div_nonneg h hu.le)
  have hr' : (0 : ℝ) ≤ ((roundEven (q / 2 ^ ulpExponent q) : ℤ) : ℝ) := by
    exact_mod_cast hr
  exact mul_nonneg hr' hu.le

theorem roundDouble_eq_of_near (q : ℝ) (e m : ℤ) (he : -1022 ≤ e)
    (h1 : (2 : ℝ) ^ e ≤ |q|) (h2 : |q| < 2 ^ (e + 1))
    (hm : |q / 2 ^ (e - 52) - m| < 1 / 2) :
    roundDouble q = m * 2 ^ (e - 52) := by
  have hpos : 0 < |q| := lt_of_lt_of_le (two_zpow_pos e) h1
  have hl : Int.log 2 |q| = e := by
    have a : e ≤ Int.log 2 |q| :=
      (Int.zpow_le_iff_le_log (b := 2) (by norm_num) hpos).1 (by simpa using h1)
    have b : Int.log 2 |q| < e + 1 :=
      (Int.lt_zpow_iff_log_lt (b := 2) (by norm_num) hpos).1 (by simpa using h2)
    omega
  have hu : ulpExponent q = e - 52 := by
    unfold ulpExponent
    rw [hl, max_eq_left he]
  unfold roundDouble
  rw [hu, roundEven_eq_of_near _ m hm]

theorem mouseMoveEventDouble_x [FloorRing α] (exp : α → α) (N : ℤ) (raw : α) :
    (mouseMoveEventDouble exp N raw).x = clamp raw 0 5 := rfl

theorem mouseMoveEventDouble_p [FloorRing α] (exp : α → α) (N : ℤ) (raw : α) :
    (mouseMoveEventDouble exp N raw).p = exp (-clamp raw 0 5) := rfl

theorem mouseMoveEventDouble_others_avg [FloorRing α] (exp : α → α) (N : ℤ)
    (raw : α) :
    (mouseMoveEventDouble exp N raw).others_avg
      = roundDouble (roundDouble (1 - exp (-clamp raw 0 5))
          / ((N - 1 : ℤ) : α)) := rfl

theorem updateRandomDouble_randomLine [FloorRing α] (log : α → α) (n : ℤ)
    (w : MainWindow α) :
    (updateRandomDouble log n w).m_randomLine
      = [⟨-log (roundDouble (1 / (n : α))), 0⟩,
         ⟨-log (roundDouble (1 / (n : α))), 1⟩] := rfl

theorem updateRandomDouble_numClasses [FloorRing α] (log : α → α) (n : ℤ)
    (w : MainWindow α) :
    (updateRandomDouble log n w).m_numClasses = n := rfl

/-- The rounding error of the handler's subtraction and division: for a target
probability `p` in `(0, 1]` and an `int` `N ≥ 2`, the rounded others-average
`b` satisfies `p + (N - 1) * b = 1` up to `2^-51`. -/
theorem rounded_others_avg_bounds (p : ℝ) (N : ℤ) (hN : 2 ≤ N)
    (hI : N ≤ 2147483647) (hp0 : 0 < p) (hp1 : p ≤ 1) :
    |p + ((N : ℝ) - 1)
        * roundDouble (roundDouble (1 - p) / ((N - 1 : ℤ) : ℝ)) - 1|
      ≤ 1 / 2 ^ 51 ∧
    0 ≤ roundDouble (roundDouble (1 - p) / ((N - 1 : ℤ) : ℝ)) ∧
    roundDouble (roundDouble (1 - p) / ((N - 1 : ℤ) : ℝ))
      ≤ 1 - p + 1 / 2 ^ 51 := by
  have h2 : (2 : ℝ) ≤ (N : ℝ) := by exact_mod_cast hN
  have h31 : (N : ℝ) ≤ 2147483647 := by exact_mod_cast hI
  have hcast : (((N - 1 : ℤ)) : ℝ) = (N : ℝ) - 1 := by push_cast; rfl
  rw [hcast]
  have hd1 : (1 : ℝ) ≤ (N : ℝ) - 1 := by linarith
  have hd0 : (0 : ℝ) ≤ (N : ℝ) - 1 := by linarith
  have hq1 : 0 ≤ 1 - p := by linarith
  have ha0 : 0 ≤ roundDouble (1 - p) := roundDouble_nonneg _ hq1
  have ha := roundDouble_abs_sub_le (1 - p)
  rw [abs_of_nonneg hq1] at ha
  obtain ⟨ha1, ha2⟩ := abs_le.1 ha
  have hq2 : 0 ≤ roundDouble (1 - p) / ((N : ℝ) - 1) := div_nonneg ha0 hd0
  have hb0 : 0 ≤ roundDouble (roundDouble (1 - p) / ((N : ℝ) - 1)) :=
    roundDouble_nonneg _ hq2
  have hb := roundDouble_abs_sub_le (roundDouble (1 - p) / ((N : ℝ) - 1))
  rw [abs_of_nonneg hq2] at hb
  obtain ⟨hb1, hb2⟩ := abs_le.1 hb
  have hdq : ((N : ℝ) - 1) * (roundDouble (1 - p) / ((N : ℝ) - 1))
      = roundDouble (1 - p) := by
    field_simp
  have hle : roundDouble (1 - p) / ((N : ℝ) - 1) ≤ roundDouble (1 - p) :=
    div_le_self ha0 hd1
  have u1 := mul_le_mul_of_nonneg_left hb2 hd0
  have u2 := mul_le_mul_of_nonneg_left hb1 hd0
  rw [mul_sub, hdq] at u1 u2
  have eE : ((N : ℝ) - 1)
      * (roundDouble (1 - p) / ((N : ℝ) - 1) / 2 ^ 53 + 1 / 2 ^ 1075)
      = roundDouble (1 - p) / 2 ^ 53 + ((N : ℝ) - 1) / 2 ^ 1075 := by
    rw [mul_add, ← mul_div_assoc, hdq]
    ring
  rw [eE] at u1
  have eE' : ((N : ℝ) - 1)
      * -(roundDouble (1 - p) / ((N : ℝ) - 1) / 2 ^ 53 + 1 / 2 ^ 1075)
      = -(roundDouble (1 - p) / 2 ^ 53 + ((N : ℝ) - 1) / 2 ^ 1075) := by
    rw [mul_neg, eE]
  rw [eE'] at u2
  refine ⟨?_, hb0, ?_⟩
  · rw [abs_le]
    constructor <;> norm_num at ha1 ha2 u1 u2 ⊢ <;> linarith
  · norm_num at ha1 ha2 hb1 hb2 hle ⊢
    linarith

/-- The binary64 number `828390857088487 / 2^51` is within half a unit in the
last place of `exp(-1)`: it is the correctly rounded value of
`std::exp(-1.0)`. -/
theorem exp_neg_one_double_near :
    |(828390857088487 / 2 ^ 51 : ℝ) - Real.exp (-1)| < 1 / 2 ^ 55 := by
  obtain ⟨h1, h2⟩ := abs_le.1 Real.exp_one_near_20
  have hpos : 0 < Real.exp (-1) := Real.exp_pos _
  have hmul : Real.exp 1 * Real.exp (-1) = 1 := by
    rw [← Real.exp_add]; norm_num
  have u1 : (363916618873 / 133877442384 - 1 / 10 ^ 20 : ℝ) * Real.exp (-1)
      ≤ Real.exp 1 * Real.exp (-1) :=
    mul_le_mul_of_nonneg_right (by linarith) hpos.le
  have u2 : Real.exp 1 * Real.exp (-1)
      ≤ (363916618873 / 133877442384 + 1 / 10 ^ 20 : ℝ) * Real.exp (-1) :=
    mul_le_mul_of_nonneg_right (by linarith) hpos.le
  rw [hmul] at u1 u2
  rw [abs_lt]
  constructor <;> norm_num at u1 u2 ⊢ <;> linarith

theorem roundDouble_one_sub_exp_neg_one :
    roundDouble (1 - 828390857088487 / 2 ^ 51 : ℝ)
      = 1423408956596761 / 2 ^ 51 := by
  have h := roundDouble_eq_of_near (1 - 828390857088487 / 2 ^ 51) (-1)
    5693635826387044 (by norm_num)
    (by rw [abs_of_pos] <;> norm_num) (by rw [abs_of_pos] <;> norm_num)
    (by norm_num [abs_lt])
  rw [h]
  norm_num

theorem roundDouble_others_avg_ten :
    roundDouble ((1423408956596761 / 2 ^ 51 : ℝ) / 9)
      = 2530504811727575 / 2 ^ 55 := by
  have h := roundDouble_eq_of_near ((1423408956596761 / 2 ^ 51 : ℝ) / 9) (-4)
    5061009623455150 (by norm_num)
    (by rw [abs_of_pos] <;> norm_num) (by rw [abs_of_pos] <;> norm_num)
    (by norm_num [abs_lt])
  rw [h]
  norm_num

theorem log_148_le : Real.log 148 ≤ 5 - 1 / 1000 := by
  rw [Real.log_le_iff_le_exp (by norm_num), sub_eq_add_neg, Real.exp_add]
  have a := exp_five_gt
  have b := Real.add_one_le_exp (-(1 / 1000 : ℝ))
  have c : (148.4 : ℝ) * (-(1 / 1000) + 1)
      ≤ Real.exp 5 * Real.exp (-(1 / 1000)) :=
    mul_le_mul a.le b (by norm_num) (Real.exp_pos 5).le
  norm_num at c ⊢
  linarith

theorem le_log_149 : 5 + 1 / 1000 ≤ Real.log 149 := by
  rw [Real.le_log_iff_exp_le (by norm_num), Real.exp_add]
  have a := exp_five_lt
  have b := abs_le.1 (Real.abs_exp_sub_one_le
    (show |(1 / 1000 : ℝ)| ≤ 1 by rw [abs_of_pos] <;> norm_num))
  rw [abs_of_pos (by norm_num : (0 : ℝ) < 1 / 1000)] at b
  have b2 : Real.exp (1 / 1000) ≤ 1 + 2 / 1000 := by linarith [b.2]
  have c : Real.exp 5 * Real.exp (1 / 1000) ≤ 148.5 * (1 + 2 / 1000) :=
    mul_le_mul a.le b2 (Real.exp_pos _).le (by norm_num)
  norm_num at c ⊢
  linarith

theorem abs_log_le_of_near_one (T : ℝ) (h1 : 1 - 1 / 2 ^ 52 ≤ T)
    (h2 : T ≤ 1 + 1 / 2 ^ 52) : |Real.log T| ≤ 1 / 2 ^ 51 := by
  have tpos : 0 < T := by norm_num at h1; linarith
  have l1 := Real.one_sub_inv_le_log_of_pos tpos
  have l2 := Real.log_le_sub_one_of_pos tpos
  have l3 : T⁻¹ ≤ (1 - 1 / 2 ^ 52 : ℝ)⁻¹ := inv_anti₀ (by norm_num) h1
  rw [abs_le]
  constructor <;> norm_num at h1 h2 l3 ⊢ <;> linarith

/-- The rounded quotient `1.0 / N` lies between `2^-32` and 1, and its
logarithm is `-ln N` up to `2^-51`. -/
theorem roundDouble_one_div_bounds (N : ℤ) (hN : 2 ≤ N) (hI : N ≤ 2147483647) :
    1 / 2 ^ 32 ≤ roundDouble (1 / (N : ℝ)) ∧ roundDouble (1 / (N : ℝ)) ≤ 1 ∧
    |Real.log (roundDouble (1 / (N : ℝ))) + Real.log N| ≤ 1 / 2 ^ 51 := by
  have h2 : (2 : ℝ) ≤ (N : ℝ) := by exact_mod_cast hN
  have h31 : (N : ℝ) ≤ 2147483647 := by exact_mod_cast hI
  have hNpos : (0 : ℝ) < (N : ℝ) := by linarith
  have hq : (0 : ℝ) < 1 / (N : ℝ) := by positivity
  have hNq : (N : ℝ) * (1 / (N : ℝ)) = 1 := by field_simp
  have hq31 : (1 : ℝ) / 2147483647 ≤ 1 / (N : ℝ) :=
    one_div_le_one_div_of_le hNpos h31
  have hq2 : (1 : ℝ) / (N : ℝ) ≤ 1 / 2 :=
    one_div_le_one_div_of_le (by norm_num) h2
  have h := roundDouble_abs_sub_le (1 / (N : ℝ))
  rw [abs_of_pos hq] at h
  obtain ⟨ha, hb⟩ := abs_le.1 h
  have u1 := mul_le_mul_of_nonneg_left hb hNpos.le
  have u2 := mul_le_mul_of_nonneg_left ha hNpos.le
  rw [mul_sub, hNq] at u1 u2
  have e1 : (N : ℝ) * (1 / (N : ℝ) / 2 ^ 53 + 1 / 2 ^ 1075)
      = 1 / 2 ^ 53 + (N : ℝ) / 2 ^ 1075 := by
    rw [mul_add, ← mul_div_assoc, hNq]
    ring
  have e2 : (N : ℝ) * -(1 / (N : ℝ) / 2 ^ 53 + 1 / 2 ^ 1075)
      = -(1 / 2 ^ 53 + (N : ℝ) / 2 ^ 1075) := by
    rw [mul_neg, e1]
  rw [e1] at u1
  rw [e2] at u2
  have t1 : (N : ℝ) * roundDouble (1 / (N : ℝ)) ≤ 1 + 1 / 2 ^ 52 := by
    norm_num at u1 ⊢
    linarith
  have t2 : 1 - 1 / 2 ^ 52 ≤ (N : ℝ) * roundDouble (1 / (N : ℝ)) := by
    norm_num at u2 ⊢
    linarith
  have ypos : 0 < roundDouble (1 / (N : ℝ)) := by
    by_contra hcon
    have : (N : ℝ) * roundDouble (1 / (N : ℝ)) ≤ 0 :=
      mul_nonpos_of_nonneg_of_nonpos hNpos.le (not_lt.1 hcon)
    norm_num at t2
    linarith
  have yle : roundDouble (1 / (N : ℝ)) ≤ 1 := by
    norm_num at ha hb hq2 ⊢
    linarith
  have tpos : 0 < (N : ℝ) * roundDouble (1 / (N : ℝ)) := mul_pos hNpos ypos
  have elog : Real.log (roundDouble (1 / (N : ℝ))) + Real.log N
      = Real.log ((N : ℝ) * roundDouble (1 / (N : ℝ))) := by
    rw [Real.log_mul hNpos.ne.symm ypos.ne.symm]
    ring
  have ylo : 1 / 2 ^ 32 ≤ roundDouble (1 / (N : ℝ)) := by
    have m := mul_le_mul_of_nonneg_right h31 ypos.le
    norm_num at t2 m ⊢
    linarith
  rw [elog]
  exact ⟨ylo, yle, abs_log_le_of_near_one _ t2 t1⟩

/-- With `std::log` accurate to `2^-46` on `[2^-32, 1]`, the x-coordinate that
`updateRandomDouble` gives the line is `ln N` up to `2^-45`. -/
theorem line_x_near_log (log : ℝ → ℝ)
    (hlog : ∀ y : ℝ, 1 / 2 ^ 32 ≤ y → y ≤ 1 →
      |log y - Real.log y| ≤ 1 / 2 ^ 46)
    (N : ℤ) (hN : 2 ≤ N) (hI : N ≤ 2147483647) :
    |-log (roundDouble (1 / (N : ℝ))) - Real.log N| ≤ 1 / 2 ^ 45 := by
  obtain ⟨ylo, yle, hy⟩ := roundDouble_one_div_bounds N hN hI
  obtain ⟨a1, a2⟩ := abs_le.1 (hlog _ ylo yle)
  obtain ⟨b1, b2⟩ := abs_le.1 hy
  rw [abs_le]
  constructor <;> norm_num at a1 a2 b1 b2 ⊢ <;> linarith

/-- With `std::exp` accurate to a relative `2^-50` on `[-5, 0]`, at an
abscissa `X` within `2^-45` of `ln N`, `2 ≤ N ≤ 148`, the clamp leaves `X`
as it is and the target probability is `1/N` up to `2^-44`. -/
theorem target_prob_near_inv (exp : ℝ → ℝ)
    (hexp : ∀ t : ℝ, -5 ≤ t → t ≤ 0 →
      |exp t - Real.exp t| ≤ Real.exp t / 2 ^ 50)
    (N : ℤ) (hN : 2 ≤ N) (h148 : N ≤ 148) (X : ℝ)
    (hX : |X - Real.log N| ≤ 1 / 2 ^ 45) :
    clamp X 0 5 = X ∧ 0 < exp (-X) ∧ exp (-X) ≤ 1 ∧
    |exp (-X) - 1 / (N : ℝ)| ≤ 1 / 2 ^ 44 := by
  have h2 : (2 : ℝ) ≤ (N : ℝ) := by exact_mod_cast hN
  have hU : (N : ℝ) ≤ 148 := by exact_mod_cast h148
  have hNpos : (0 : ℝ) < (N : ℝ) := by linarith
  obtain ⟨x1, x2⟩ := abs_le.1 hX
  have l2 : Real.log 2 ≤ Real.log N := Real.log_le_log (by norm_num) h2
  have l148 : Real.log N ≤ Real.log 148 := Real.log_le_log hNpos hU
  have lg := Real.log_two_gt_d9
  have lu := log_148_le
  have hX0 : 0 ≤ X := by norm_num at x1 lg ⊢; linarith
  have hX5 : X ≤ 5 := by norm_num at x2 lu ⊢; linarith
  have hc : clamp X 0 5 = X :=
    (clamp_eq_self_iff X 0 5 (by norm_num)).2 ⟨hX0, hX5⟩
  have hg : (N : ℝ) * Real.exp (-X) = Real.exp (Real.log N - X) := by
    rw [sub_eq_add_neg, Real.exp_add, Real.exp_log hNpos]
  have hd : |Real.log N - X| ≤ 1 / 2 ^ 45 := by
    rw [abs_sub_comm]; exact hX
  have hg1 := Real.abs_exp_sub_one_le
    (le_trans hd (by norm_num) : |Real.log N - X| ≤ 1)
  obtain ⟨g1, g2⟩ := abs_le.1 (le_trans hg1
    (mul_le_mul_of_nonneg_left hd (by norm_num)))
  rw [← hg] at g1 g2
  obtain ⟨e1, e2⟩ := abs_le.1 (hexp (-X) (by linarith) (by linarith))
  have u1 := mul_le_mul_of_nonneg_left e2 hNpos.le
  have u2 := mul_le_mul_of_nonneg_left e1 hNpos.le
  rw [mul_sub] at u1 u2
  have f1 : (N : ℝ) * (Real.exp (-X) / 2 ^ 50)
      = (N : ℝ) * Real.exp (-X) / 2 ^ 50 := by ring
  have f2 : (N : ℝ) * -(Real.exp (-X) / 2 ^ 50)
      = -((N : ℝ) * Real.exp (-X) / 2 ^ 50) := by ring
  rw [f1] at u1
  rw [f2] at u2
  have w1 : (N : ℝ) * exp (-X) - 1 ≤ 1 / 2 ^ 43 := by
    norm_num at g1 g2 u1 u2 ⊢
    linarith
  have w2 : -(1 / 2 ^ 43) ≤ (N : ℝ) * exp (-X) - 1 := by
    norm_num at g1 g2 u1 u2 ⊢
    linarith
  have ppos : 0 < exp (-X) := by
    by_contra hcon
    have : (N : ℝ) * exp (-X) ≤ 0 :=
      mul_nonpos_of_nonneg_of_nonpos hNpos.le (not_lt.1 hcon)
    norm_num at w2
    linarith
  have ple : exp (-X) ≤ 1 := by
    by_contra hcon
    have h3 : 0 ≤ ((N : ℝ) - 2) * exp (-X) :=
      mul_nonneg (by linarith) ppos.le
    have h4 : ((N : ℝ) - 2) * exp (-X)
        = (N : ℝ) * exp (-X) - 2 * exp (-X) := by ring
    rw [h4] at h3
    norm_num at w1
    linarith [not_le.1 hcon]
  refine ⟨hc, ppos, ple, ?_⟩
  have e : exp (-X) - 1 / (N : ℝ) = ((N : ℝ) * exp (-X) - 1) / (N : ℝ) := by
    field_simp
    ring
  rw [e, abs_div, abs_of_pos hNpos, div_le_iff₀ hNpos]
  have hw : |(N : ℝ) * exp (-X) - 1| ≤ 1 / 2 ^ 43 := abs_le.2 ⟨w2, w1⟩
  have hn : (1 : ℝ) / 2 ^ 43 ≤ 1 / 2 ^ 44 * (N : ℝ) := by
    norm_num
    linarith
  exact le_trans hw hn

/-- When the sum `p + (N - 1) * b` is 1 up to `2^-51` and `p` is `1/N` up to
`2^-44`, then `b` is `1/N` up to `2^-43`. -/
theorem others_avg_near_inv (p b : ℝ) (N : ℤ) (hN : 2 ≤ N)
    (hs : |p + ((N : ℝ) - 1) * b - 1| ≤ 1 / 2 ^ 51)
    (hp : |p - 1 / (N : ℝ)| ≤ 1 / 2 ^ 44) :
    |b - 1 / (N : ℝ)| ≤ 1 / 2 ^ 43 := by
  have h2 : (2 : ℝ) ≤ (N : ℝ) := by exact_mod_cast hN
  have hd : (0 : ℝ) < (N : ℝ) - 1 := by linarith
  have hNne : (N : ℝ) ≠ 0 := by
    have : (0 : ℝ) < (N : ℝ) := by linarith
    exact this.ne.symm
  have e : b - 1 / (N : ℝ)
      = ((p + ((N : ℝ) - 1) * b - 1) - (p - 1 / (N : ℝ))) / ((N : ℝ) - 1) := by
    field_simp
    ring
  have h3 : |(p + ((N : ℝ) - 1) * b - 1) - (p - 1 / (N : ℝ))|
      ≤ 1 / 2 ^ 51 + 1 / 2 ^ 44 :=
    le_trans (abs_sub _ _) (add_le_add hs hp)
  rw [e, abs_div, abs_of_pos hd, div_le_iff₀ hd]
  have h4 : (1 : ℝ) / 2 ^ 51 + 1 / 2 ^ 44 ≤ 1 / 2 ^ 43 * ((N : ℝ) - 1) := by
    norm_num
    linarith
  exact le_trans h3 h4

/-- An abscissa within `2^-45` of `ln N` is at most 5 exactly when
`N ≤ 148`. -/
theorem le_five_iff_of_near_log (N : ℤ) (hN : 2 ≤ N) (X : ℝ)
    (hX : |X - Real.log N| ≤ 1 / 2 ^ 45) : X ≤ 5 ↔ N ≤ 148 := by
  have h2 : (2 : ℝ) ≤ (N : ℝ) := by exact_mod_cast hN
  have hpos : (0 : ℝ) < (N : ℝ) := by linarith
  obtain ⟨x1, x2⟩ := abs_le.1 hX
  constructor
  · intro h5
    by_contra hcon
    have h149 : (149 : ℝ) ≤ (N : ℝ) := by
      have : 149 ≤ N := by omega
      exact_mod_cast this
    have l1 : Real.log 149 ≤ Real.log N :=
      Real.log_le_log (by norm_num) h149
    have l2 := le_log_149
    norm_num at x1 l2
    linarith
  · intro h148
    have hU : (N : ℝ) ≤ 148 := by exact_mod_cast h148
    have l1 : Real.log N ≤ Real.log 148 := Real.log_le_log hpos hU
    have l2 := log_148_le
    norm_num at x2 l2
    linarith

theorem roundDouble_one_tenth :
    roundDouble (1 / 10 : ℝ) = 7205759403792794 / 2 ^ 56 := by
  have h := roundDouble_eq_of_near (1 / 10) (-4) 7205759403792794 (by norm_num)
    (by rw [abs_of_pos] <;> norm_num) (by rw [abs_of_pos] <;> norm_num)
    (by norm_num [abs_lt])
  rw [h]
  norm_num

theorem log_two_bounds_d18 :
    (0.693147180559945309 : ℝ) < Real.log 2 ∧
    Real.log 2 < 0.693147180559945310 := by
  have t : |(2⁻¹ : ℝ)| = 2⁻¹ := by rw [abs_of_pos]; norm_num
  have z := Real.abs_log_sub_add_sum_range_le
    (show |(2⁻¹ : ℝ)| < 1 by rw [t]; norm_num) 64
  rw [t] at z
  have e : Real.log (1 - 2⁻¹) = -Real.log 2 := by
    rw [← Real.log_inv]; norm_num
  rw [e] at z
  simp only [Finset.sum_range_succ, Finset.sum_range_zero] at z
  norm_num at z
  rw [abs_le] at z
  constructor <;> norm_num <;> linarith [z.1, z.2]

theorem log_five_fourths_bounds_d18 :
    (0.2231435513142097557 : ℝ) < Real.log (5 / 4) ∧
    Real.log (5 / 4) < 0.2231435513142097558 := by
  have t : |(5⁻¹ : ℝ)| = 5⁻¹ := by rw [abs_of_pos]; norm_num
  have z := Real.abs_log_sub_add_sum_range_le
    (show |(5⁻¹ : ℝ)| < 1 by rw [t]; norm_num) 27
  rw [t] at z
  have e : Real.log (1 - 5⁻¹) = -Real.log (5 / 4) := by
    rw [← Real.log_inv]; norm_num
  rw [e] at z
  simp only [Finset.sum_range_succ, Finset.sum_range_zero] at z
  norm_num at z
  rw [abs_le] at z
  constructor <;> norm_num <;> linarith [z.1, z.2]

theorem log_ten_bounds_d18 :
    (2.3025850929940456827 : ℝ) < Real.log 10 ∧
    Real.log 10 < 2.3025850929940456858 := by
  obtain ⟨a1, a2⟩ := log_two_bounds_d18
  obtain ⟨b1, b2⟩ := log_five_fourths_bounds_d18
  rw [log_ten_eq]
  constructor <;> norm_num at a1 a2 b1 b2 ⊢ <;> linarith

/-- The logarithm of the binary64 number `fl(1/10) = (1 + 2^-54) / 10`. -/
theorem log_round_tenth_bounds :
    (-2.3025850929940456858 + 55511151231257 / 10 ^ 30 : ℝ)
      < Real.log (7205759403792794 / 2 ^ 56) ∧
    Real.log (7205759403792794 / 2 ^ 56)
      < (-2.3025850929940456827 + 55511151231258 / 10 ^ 30 : ℝ) := by
  obtain ⟨a1, a2⟩ := log_ten_bounds_d18
  have e : (7205759403792794 / 2 ^ 56 : ℝ) = (1 + 1 / 2 ^ 54) / 10 := by
    norm_num
  have hpos : (0 : ℝ) < 1 + 1 / 2 ^ 54 := by norm_num
  rw [e, Real.log_div hpos.ne.symm (by norm_num)]
  have l1 := Real.one_sub_inv_le_log_of_pos hpos
  have l2 := Real.log_le_sub_one_of_pos hpos
  constructor <;> norm_num at a1 a2 l1 l2 ⊢ <;> linarith

/-- The binary64 number `-5184960683398421 / 2^51` is within half a unit in
the last place of `ln(fl(1/10))`: it is the correctly rounded value of
`std::log(1.0 / 10)`. -/
theorem log_round_tenth_double_near :
    |(-5184960683398421 / 2 ^ 51 : ℝ)
        - Real.log (roundDouble (1 / ((10 : ℤ) : ℝ)))| < 1 / 2 ^ 52 := by
  have e : ((10 : ℤ) : ℝ) = 10 := by norm_num
  rw [e, roundDouble_one_tenth]
  obtain ⟨a1, a2⟩ := log_round_tenth_bounds
  rw [abs_lt]
  constructor <;> norm_num at a1 a2 ⊢ <;> linarith

/-- The binary64 number `7205759403792795 / 2^56` is within half a unit in
the last place of `exp(-x)` at `x = 5184960683398421 / 2^51`: it is the
correctly rounded value of `std::exp(-x)`. -/
theorem exp_line_double_near :
    |(7205759403792795 / 2 ^ 56 : ℝ)
        - Real.exp (-(5184960683398421 / 2 ^ 51))| < 1 / 2 ^ 57 := by
  obtain ⟨a1, a2⟩ := log_ten_bounds_d18
  have hsplit : Real.exp (-(5184960683398421 / 2 ^ 51 : ℝ))
      = Real.exp (Real.log 10 - 5184960683398421 / 2 ^ 51) / 10 := by
    rw [sub_eq_add_neg, Real.exp_add, Real.exp_log (by norm_num)]
    ring
  have hd0 : 0 ≤ Real.log 10 - 5184960683398421 / 2 ^ 51 := by
    norm_num at a1 ⊢; linarith
  have hd1 : Real.log 10 - 5184960683398421 / 2 ^ 51 ≤ 1 / 10 ^ 15 := by
    norm_num at a2 ⊢; linarith
  have g1 := Real.add_one_le_exp (Real.log 10 - 5184960683398421 / 2 ^ 51)
  have g3 := Real.abs_exp_sub_one_sub_id_le
    (show |Real.log 10 - 5184960683398421 / 2 ^ 51| ≤ 1 by
      rw [abs_of_nonneg hd0]; exact le_trans hd1 (by norm_num))
  have hsq : (Real.log 10 - 5184960683398421 / 2 ^ 51) ^ 2 ≤ 1 / 10 ^ 30 := by
    have := pow_le_pow_left₀ hd0 hd1 2
    norm_num at this ⊢
    linarith
  obtain ⟨g4, g5⟩ := abs_le.1 g3
  rw [hsplit, abs_lt]
  constructor <;> norm_num at a1 a2 g1 g5 hsq ⊢ <;> linarith

theorem roundDouble_one_sub_line_prob :
    roundDouble (1 - 7205759403792795 / 2 ^ 56 : ℝ)
      = 8106479329266893 / 2 ^ 53 := by
  have h := roundDouble_eq_of_near (1 - 7205759403792795 / 2 ^ 56) (-1)
    8106479329266893 (by norm_num)
    (by rw [abs_of_pos] <;> norm_num) (by rw [abs_of_pos] <;> norm_num)
    (by norm_num [abs_lt])
  rw [h]
  norm_num

theorem roundDouble_line_others_avg :
    roundDouble ((8106479329266893 / 2 ^ 53 : ℝ) / 9)
      = 7205759403792794 / 2 ^ 56 := by
  have h := roundDouble_eq_of_near ((8106479329266893 / 2 ^ 53 : ℝ) / 9) (-4)
    7205759403792794 (by norm_num)
    (by rw [abs_of_pos] <;> norm_num) (by rw [abs_of_pos] <;> norm_num)
    (by norm_num [abs_lt])
  rw [h]
  norm_num

theorem clamp_line_ten :
    clamp (5184960683398421 / 2 ^ 51 : ℝ) 0 5 = 5184960683398421 / 2 ^ 51 :=
  (clamp_eq_self_iff _ 0 5 (by norm_num)).2 ⟨by norm_num, by norm_num⟩

end Auxiliary

/-! ## The reference-line updater -/

/-- C2: for every raw mapped x-value, the `x` that `mouseMoveEvent` uses for
the probability and shows as Loss is `clamp(raw, 0, 5) = max 0 (min raw 5)`;
it lies in `[0, 5]`, it equals the raw value exactly when the raw value is in
`[0, 5]`, and the raw value 7.2 gives exactly 5. -/
theorem mouseMoveEvent_x_clamped (N : ℤ) (raw : ℝ) :
    (mouseMoveEvent Real.exp N raw).x = max 0 (min raw 5) ∧
    0 ≤ (mouseMoveEvent Real.exp N raw).x ∧
    (mouseMoveEvent Real.exp N raw).x ≤ 5 ∧
    ((mouseMoveEvent Real.exp N raw).x = raw ↔ 0 ≤ raw ∧ raw ≤ 5) ∧
    (mouseMoveEvent Real.exp N raw).p = Real.exp (-(max 0 (min raw 5))) ∧
    (mouseMoveEvent Real.exp N raw).tipLoss = number_f4 (max 0 (min raw 5)) ∧
    (mouseMoveEvent Real.exp N 7.2).x = 5 := by
  have hm := clamp_eq_max_min raw (0 : ℝ) 5 (by norm_num)
  refine ⟨hm, (clamp_zero_five_mem raw).1, (clamp_zero_five_mem raw).2,
    clamp_eq_self_iff raw 0 5 (by norm_num), ?_, ?_, ?_⟩
  · rw [mouseMoveEvent_p, hm]
  · show number_f4 (clamp raw 0 5) = _
    rw [hm]
  · rw [mouseMoveEvent_x]
    unfold clamp
    norm_num

/-- C3: in every reachable state, that is after the constructor and any
sequence of spinner edits and pointer moves, the class count is in
`[2, 100000]`; it is 2 after the constructor; so whenever the cross-hair
handler runs, the divisor `N - 1` is at least 1, as an `int` and as the
`double` it is converted to, and the division is not a division by zero. -/
theorem numClasses_ge_two (es : List (Event ℝ)) :
    (run Real.exp Real.log ([] : List (Event ℝ))).m_numClasses = 2 ∧
    2 ≤ (run Real.exp Real.log es).m_numClasses ∧
    (run Real.exp Real.log es).m_numClasses ≤ 100000 ∧
    1 ≤ (run Real.exp Real.log es).m_numClasses - 1 ∧
    (1 : ℝ) ≤ (((run Real.exp Real.log es).m_numClasses - 1 : ℤ) : ℝ) ∧
    (((run Real.exp Real.log es).m_numClasses - 1 : ℤ) : ℝ) ≠ 0 ∧
    ∀ raw : ℝ,
      (step Real.exp Real.log (run Real.exp Real.log es) (.mouseMove raw)).2
        = some (mouseMoveEvent Real.exp
            (run Real.exp Real.log es).m_numClasses raw) := by
  obtain ⟨-, -, -, h2, h5, -, -, -⟩ := inv_run Real.exp Real.log es
  have h1 : 1 ≤ (run Real.exp Real.log es).m_numClasses - 1 := by linarith
  have hr : (1 : ℝ) ≤ (((run Real.exp Real.log es).m_numClasses - 1 : ℤ) : ℝ) := by
    exact_mod_cast h1
  refine ⟨rfl, h2, h5, h1, hr, ?_, fun raw => rfl⟩
  linarith

/-- C5: for every `x` in `[0, 5]` the target probability the handler computes
is `exp(-x)` and lies in `[exp(-5), 1]`, so it is strictly positive and at
most 1; `exp(-5)` is 0.0067 to four decimal places; and for every raw pointer
value the probability computed after clamping lies in the same interval. -/
theorem targetProb_bounds (N : ℤ) (x : ℝ) (h0 : 0 ≤ x) (h5 : x ≤ 5) :
    (mouseMoveEvent Real.exp N x).p = Real.exp (-x) ∧
    Real.exp (-5) ≤ (mouseMoveEvent Real.exp N x).p ∧
    (mouseMoveEvent Real.exp N x).p ≤ 1 ∧
    0 < (mouseMoveEvent Real.exp N x).p ∧
    |Real.exp (-5) - 0.0067| < 0.00005 ∧
    ∀ raw : ℝ,
      Real.exp (-5) ≤ (mouseMoveEvent Real.exp N raw).p ∧
      (mouseMoveEvent Real.exp N raw).p ≤ 1 := by
  have hx : clamp x 0 5 = x :=
    (clamp_eq_self_iff x 0 5 (by norm_num)).2 ⟨h0, h5⟩
  refine ⟨?_, (exp_neg_clamp_bounds x).1, (exp_neg_clamp_bounds x).2,
    Real.exp_pos _, ?_, fun raw => exp_neg_clamp_bounds raw⟩
  · rw [mouseMoveEvent_p, hx]
  · obtain ⟨a, b⟩ := exp_neg_five_bounds
    rw [abs_lt]
    constructor <;> norm_num at a b ⊢ <;> linarith

theorem targetProb_bounds_witness :
    (0 : ℝ) ≤ 1 ∧ (1 : ℝ) ≤ 5 ∧
    (mouseMoveEvent Real.exp 10 1).p = Real.exp (-1) ∧
    Real.exp (-5) ≤ (mouseMoveEvent Real.exp 10 1).p ∧
    (mouseMoveEvent Real.exp 10 1).p ≤ 1 :=
  have h := targetProb_bounds 10 1 (by norm_num) (by norm_num)
  ⟨by norm_num, by norm_num, h.1, h.2.1, h.2.2.1⟩

/-- C6: for every integer `N ≥ 2` and every target probability `p` in
`(0, 1)`, whatever function stands for `std::exp`, the others-average
probability the handler computes is `(1 - p)/(N - 1)` and is at least 0. -/
theorem others_avg_nonneg (exp : ℝ → ℝ) (N : ℤ) (hN : 2 ≤ N) (raw : ℝ)
    (hp0 : 0 < (mouseMoveEvent exp N raw).p)
    (hp1 : (mouseMoveEvent exp N raw).p < 1) :
    (mouseMoveEvent exp N raw).others_avg
      = (1 - (mouseMoveEvent exp N raw).p) / ((N : ℝ) - 1) ∧
    0 ≤ (mouseMoveEvent exp N raw).others_avg := by
  have h2 : (2 : ℝ) ≤ (N : ℝ) := by exact_mod_cast hN
  have e : (mouseMoveEvent exp N raw).others_avg
      = (1 - (mouseMoveEvent exp N raw).p) / ((N : ℝ) - 1) := by
    rw [mouseMoveEvent_others_avg, mouseMoveEvent_p]
    push_cast
    rfl
  refine ⟨e, ?_⟩
  rw [e]
  exact div_nonneg (by linarith) (by linarith)

theorem others_avg_nonneg_witness :
    (2 : ℤ) ≤ 10 ∧
    0 < (mouseMoveEvent Real.exp 10 1).p ∧
    (mouseMoveEvent Real.exp 10 1).p < 1 ∧
    0 ≤ (mouseMoveEvent Real.exp 10 1).others_avg :=
  have hp0 : 0 < (mouseMoveEvent Real.exp 10 1).p := Real.exp_pos _
  have hp1 : (mouseMoveEvent Real.exp 10 1).p < 1 := by
    rw [mouseMoveEvent_p, clamp_one]
    exact Real.exp_lt_one_iff.2 (by norm_num)
  ⟨by decide, hp0, hp1,
    (others_avg_nonneg Real.exp 10 (by decide) 1 hp0 hp1).2⟩

/-- C7: the tooltip of the two scenarios. With `N = 10` and the pointer at
`x = 1`, the target probability is `exp(-1)`, shown as 0.3679, and the others
average is `(1 - exp(-1))/9`, shown as 0.0702. With `N = 2` and the pointer at
`x = 0`, the target probability is exactly 1, shown as 1.0000, and the others
average is exactly 0, shown as 0.0000. -/
theorem tooltip_scenarios :
    (mouseMoveEvent Real.exp 10 1).x = 1 ∧
    (mouseMoveEvent Real.exp 10 1).p = Real.exp (-1) ∧
    (mouseMoveEvent Real.exp 10 1).others_avg = (1 - Real.exp (-1)) / 9 ∧
    (mouseMoveEvent Real.exp 10 1).tipTargetProb = 3679 ∧
    (mouseMoveEvent Real.exp 10 1).tipOthersAvg = 702 ∧
    (mouseMoveEvent Real.exp 2 0).x = 0 ∧
    (mouseMoveEvent Real.exp 2 0).p = 1 ∧
    (mouseMoveEvent Real.exp 2 0).others_avg = 0 ∧
    (mouseMoveEvent Real.exp 2 0).tipTargetProb = 10000 ∧
    (mouseMoveEvent Real.exp 2 0).tipOthersAvg = 0 := by
  have a := Real.exp_neg_one_gt_d9
  have b := Real.exp_neg_one_lt_d9
  have p1 : (mouseMoveEvent Real.exp 10 1).p = Real.exp (-1) := by
    rw [mouseMoveEvent_p, clamp_one]
  have o1 : (mouseMoveEvent Real.exp 10 1).others_avg
      = (1 - Real.exp (-1)) / 9 := by
    rw [mouseMoveEvent_others_avg, clamp_one]
    norm_num
  have p0 : (mouseMoveEvent Real.exp 2 0).p = 1 := by
    rw [mouseMoveEvent_p, clamp_zero, neg_zero, Real.exp_zero]
  have o0 : (mouseMoveEvent Real.exp 2 0).others_avg = 0 := by
    rw [mouseMoveEvent_others_avg, clamp_zero, neg_zero, Real.exp_zero]
    norm_num
  refine ⟨clamp_one, p1, o1, ?_, ?_, clamp_zero, p0, o0, ?_, ?_⟩
  · show number_f4 (mouseMoveEvent Real.exp 10 1).p = 3679
    rw [p1]
    apply number_f4_eq <;> norm_num at a b ⊢ <;> linarith
  · show number_f4 (mouseMoveEvent Real.exp 10 1).others_avg = 702
    rw [o1]
    apply number_f4_eq <;> norm_num at a b ⊢ <;> linarith
  · show number_f4 (mouseMoveEvent Real.exp 2 0).p = 10000
    rw [p0]
    apply number_f4_eq <;> norm_num
  · show number_f4 (mouseMoveEvent Real.exp 2 0).others_avg = 0
    rw [o0]
    apply number_f4_eq <;> norm_num

/-- C8: when the spinner is set to 100000, in whatever reachable state, the
class count becomes 100000 and the dynamic line is the two points
`(ln 100000, 0)` and `(ln 100000, 1)`, as `updateRandom(100000)` builds them
from any state; `ln 100000` is 11.5129 to four decimal places and is
greater than 5, the upper end of the x-axis range `[0, 5]`, which the window
still has. -/
theorem line_off_axis_at_max (es : List (Event ℝ)) (w : MainWindow ℝ) :
    (updateRandom Real.log 100000 w).m_randomLine
      = [⟨Real.log 100000, 0⟩, ⟨Real.log 100000, 1⟩] ∧
    (run Real.exp Real.log (es ++ [.spinEdit 100000])).m_numClasses
      = 100000 ∧
    (run Real.exp Real.log (es ++ [.spinEdit 100000])).m_randomLine
      = [⟨Real.log 100000, 0⟩, ⟨Real.log 100000, 1⟩] ∧
    (run Real.exp Real.log (es ++ [.spinEdit 100000])).axisX = ⟨0, 5⟩ ∧
    (run Real.exp Real.log (es ++ [.spinEdit 100000])).axisX.max
      < Real.log 100000 ∧
    number_f4 (Real.log 100000) = 115129 ∧
    (5 : ℝ) < Real.log 100000 := by
  obtain ⟨a, b⟩ := log_hundred_thousand_bounds
  have hl : -Real.log (1 / (((100000 : ℤ) : ℝ))) = Real.log 100000 := by
    rw [neg_log_one_div]; norm_num
  have hs := step_spinEdit_in_range Real.exp Real.log
    (run Real.exp Real.log es) (inv_run Real.exp Real.log es) 100000
    (by decide) (by decide)
  have hi := inv_run Real.exp Real.log (es ++ [.spinEdit 100000])
  have hx := hi.2.2.2.2.2.2.1
  rw [← run_append_singleton, hl] at hs
  refine ⟨?_, hs.1, hs.2, hx, ?_, ?_, ?_⟩
  · rw [updateRandom_randomLine, hl]
  · rw [hx]
    show (5 : ℝ) < Real.log 100000
    norm_num at a ⊢
    linarith
  · apply number_f4_eq <;> norm_num at a b ⊢ <;> linarith
  · norm_num at a ⊢
    linarith

/-! ## Identities of the formulas in exact arithmetic -/

/-- In exact real arithmetic the handler's formulas give a probability
distribution over `N` classes: `p + (N - 1) * others_avg = 1`, and
`others_avg` lies in `[0, 1 - exp(-5)]`, with `others_avg ≤ 1 - p < 1`. -/
theorem exact_probabilities_sum_to_one (N : ℤ) (hN : 2 ≤ N) (raw : ℝ) :
    (mouseMoveEvent Real.exp N raw).p
      + ((N : ℝ) - 1) * (mouseMoveEvent Real.exp N raw).others_avg = 1 ∧
    0 ≤ (mouseMoveEvent Real.exp N raw).others_avg ∧
    (mouseMoveEvent Real.exp N raw).others_avg ≤ 1 - Real.exp (-5) ∧
    (mouseMoveEvent Real.exp N raw).others_avg
      ≤ 1 - (mouseMoveEvent Real.exp N raw).p ∧
    1 - (mouseMoveEvent Real.exp N raw).p < 1 := by
  have h2 : (2 : ℝ) ≤ (N : ℝ) := by exact_mod_cast hN
  have hd : (0 : ℝ) < (N : ℝ) - 1 := by linarith
  obtain ⟨hlo, hhi⟩ := exp_neg_clamp_bounds raw
  have hpos : 0 < Real.exp (-clamp raw 0 5) := Real.exp_pos _
  rw [mouseMoveEvent_others_avg, mouseMoveEvent_p]
  push_cast
  have hle : (1 - Real.exp (-clamp raw 0 5)) / ((N : ℝ) - 1)
      ≤ 1 - Real.exp (-clamp raw 0 5) :=
    div_le_self (by linarith) (by linarith)
  refine ⟨?_, div_nonneg (by linarith) hd.le, ?_, hle, ?_⟩
  · field_simp
  · linarith
  · linarith

/-- In exact real arithmetic the line of `updateRandom(N)` is at `ln N`, which
is at most 5 exactly when `N ≤ 148`; there the handler's formulas give
`p = 1/N` and `others_avg = 1/N`; for `N ≥ 149` the clamped `x` stays below
the line. -/
theorem exact_random_line_baseline (N : ℤ) (hN : 2 ≤ N)
    (w : MainWindow ℝ) :
    (Real.log N ≤ 5 ↔ N ≤ 148) ∧
    (N ≤ 148 → ∀ pt ∈ (updateRandom Real.log N w).m_randomLine,
      (mouseMoveEvent Real.exp
          (updateRandom Real.log N w).m_numClasses pt.x).x = pt.x ∧
      (mouseMoveEvent Real.exp
          (updateRandom Real.log N w).m_numClasses pt.x).p = 1 / (N : ℝ) ∧
      (mouseMoveEvent Real.exp
          (updateRandom Real.log N w).m_numClasses pt.x).others_avg
        = 1 / (N : ℝ)) ∧
    (149 ≤ N → ∀ pt ∈ (updateRandom Real.log N w).m_randomLine,
      5 < pt.x ∧ ∀ raw : ℝ, (mouseMoveEvent Real.exp N raw).x < pt.x) := by
  have h2 : (2 : ℝ) ≤ (N : ℝ) := by exact_mod_cast hN
  have hpos : (0 : ℝ) < (N : ℝ) := by linarith
  have hiff := log_le_five_iff N hN
  have hx : ∀ pt ∈ (updateRandom Real.log N w).m_randomLine,
      pt.x = Real.log N := by
    intro pt hpt
    rw [updateRandom_randomLine, neg_log_one_div] at hpt
    simp only [List.mem_cons, List.mem_singleton, List.not_mem_nil,
      or_false] at hpt
    rcases hpt with rfl | rfl <;> rfl
  refine ⟨hiff, ?_, ?_⟩
  · intro h148 pt hpt
    have hlog5 : Real.log N ≤ 5 := hiff.2 h148
    have hlog0 : 0 ≤ Real.log N := Real.log_nonneg (by linarith)
    have hc : clamp (Real.log N) 0 5 = Real.log N :=
      (clamp_eq_self_iff _ 0 5 (by norm_num)).2 ⟨hlog0, hlog5⟩
    rw [hx pt hpt, updateRandom_numClasses, mouseMoveEvent_x,
      mouseMoveEvent_p, mouseMoveEvent_others_avg, hc, Real.exp_neg,
      Real.exp_log hpos]
    refine ⟨rfl, by rw [one_div], ?_⟩
    push_cast
    have hd : (N : ℝ) - 1 ≠ 0 := by
      have : (0 : ℝ) < (N : ℝ) - 1 := by linarith
      exact this.ne.symm
    field_simp
    ring
  · intro h149 pt hpt
    have hgt : 5 < Real.log N := by
      by_contra hcon
      have := hiff.1 (not_lt.1 hcon)
      linarith
    rw [hx pt hpt]
    refine ⟨hgt, fun raw => ?_⟩
    rw [mouseMoveEvent_x]
    exact lt_of_le_of_lt (clamp_zero_five_mem raw).2 hgt

/-! ## The same relations in `double` arithmetic -/

/-- C9, refuted as stated: with `N = 10` and the pointer at `x = 1`,
`std::exp(-1.0)` is the binary64 number `828390857088487 / 2^51` (the one
nearest to `exp(-1)`), the handler's rounded others-average is
`2530504811727575 / 2^55`, and `p + (N - 1) * others_avg` is `1 - 2^-55`,
not 1. -/
theorem probabilities_sum_to_one_counterexample :
    |(828390857088487 / 2 ^ 51 : ℝ) - Real.exp (-1)| < 1 / 2 ^ 55 ∧
    (mouseMoveEventDouble (fun _ => (828390857088487 / 2 ^ 51 : ℝ)) 10 1).p
      = 828390857088487 / 2 ^ 51 ∧
    (mouseMoveEventDouble
        (fun _ => (828390857088487 / 2 ^ 51 : ℝ)) 10 1).others_avg
      = 2530504811727575 / 2 ^ 55 ∧
    (mouseMoveEventDouble (fun _ => (828390857088487 / 2 ^ 51 : ℝ)) 10 1).p
      + (((10 : ℤ) : ℝ) - 1) * (mouseMoveEventDouble
        (fun _ => (828390857088487 / 2 ^ 51 : ℝ)) 10 1).others_avg
      ≠ 1 := by
  have ho : (mouseMoveEventDouble
        (fun _ => (828390857088487 / 2 ^ 51 : ℝ)) 10 1).others_avg
      = 2530504811727575 / 2 ^ 55 := by
    rw [mouseMoveEventDouble_others_avg, roundDouble_one_sub_exp_neg_one]
    have e : (((10 - 1 : ℤ)) : ℝ) = 9 := by norm_num
    rw [e, roundDouble_others_avg_ten]
  refine ⟨exp_neg_one_double_near, rfl, ho, ?_⟩
  rw [ho, mouseMoveEventDouble_p]
  norm_num

/-- C9, amended: for every `int` `N ≥ 2` and every pointer position, when the
target probability `p` that `std::exp` returns lies in `(0, 1]`, the values
the handler computes in `double` arithmetic satisfy
`p + (N - 1) * others_avg = 1` up to `2^-51`, with
`0 ≤ others_avg ≤ 1 - p + 2^-51` and `1 - p < 1`; and in exact real
arithmetic the handler's formulas give `p + (N - 1) * others_avg = 1` exactly,
with `others_avg` in `[0, 1 - exp(-5)]` and `others_avg ≤ 1 - p < 1`. -/
theorem probabilities_sum_to_one_up_to_rounding (exp : ℝ → ℝ) (N : ℤ)
    (hN : 2 ≤ N) (hI : N ≤ 2147483647) (raw : ℝ)
    (hp0 : 0 < (mouseMoveEventDouble exp N raw).p)
    (hp1 : (mouseMoveEventDouble exp N raw).p ≤ 1) :
    |(mouseMoveEventDouble exp N raw).p
        + ((N : ℝ) - 1) * (mouseMoveEventDouble exp N raw).others_avg - 1|
      ≤ 1 / 2 ^ 51 ∧
    0 ≤ (mouseMoveEventDouble exp N raw).others_avg ∧
    (mouseMoveEventDouble exp N raw).others_avg
      ≤ 1 - (mouseMoveEventDouble exp N raw).p + 1 / 2 ^ 51 ∧
    1 - (mouseMoveEventDouble exp N raw).p < 1 ∧
    (mouseMoveEvent Real.exp N raw).p
      + ((N : ℝ) - 1) * (mouseMoveEvent Real.exp N raw).others_avg = 1 ∧
    0 ≤ (mouseMoveEvent Real.exp N raw).others_avg ∧
    (mouseMoveEvent Real.exp N raw).others_avg ≤ 1 - Real.exp (-5) ∧
    (mouseMoveEvent Real.exp N raw).others_avg
      ≤ 1 - (mouseMoveEvent Real.exp N raw).p ∧
    1 - (mouseMoveEvent Real.exp N raw).p < 1 := by
  obtain ⟨r1, r2, r3⟩ := rounded_others_avg_bounds
    (mouseMoveEventDouble exp N raw).p N hN hI hp0 hp1
  exact ⟨r1, r2, r3, by linarith, exact_probabilities_sum_to_one N hN raw⟩

theorem probabilities_sum_to_one_up_to_rounding_witness :
    (2 : ℤ) ≤ 10 ∧ (10 : ℤ) ≤ 2147483647 ∧
    0 < (mouseMoveEventDouble
      (fun _ => (828390857088487 / 2 ^ 51 : ℝ)) 10 1).p ∧
    (mouseMoveEventDouble
      (fun _ => (828390857088487 / 2 ^ 51 : ℝ)) 10 1).p ≤ 1 ∧
    |(mouseMoveEventDouble (fun _ => (828390857088487 / 2 ^ 51 : ℝ)) 10 1).p
        + (((10 : ℤ) : ℝ) - 1) * (mouseMoveEventDouble
          (fun _ => (828390857088487 / 2 ^ 51 : ℝ)) 10 1).others_avg - 1|
      ≤ 1 / 2 ^ 51 ∧
    (mouseMoveEvent Real.exp 10 1).p
      + (((10 : ℤ) : ℝ) - 1) * (mouseMoveEvent Real.exp 10 1).others_avg = 1 :=
  have hp0 : 0 < (mouseMoveEventDouble
      (fun _ => (828390857088487 / 2 ^ 51 : ℝ)) 10 1).p := by
    rw [mouseMoveEventDouble_p]; norm_num
  have hp1 : (mouseMoveEventDouble
      (fun _ => (828390857088487 / 2 ^ 51 : ℝ)) 10 1).p ≤ 1 := by
    rw [mouseMoveEventDouble_p]; norm_num
  have h := probabilities_sum_to_one_up_to_rounding
    (fun _ => (828390857088487 / 2 ^ 51 : ℝ)) 10 (by decide) (by decide) 1
    hp0 hp1
  ⟨by decide, by decide, hp0, hp1, h.1, h.2.2.2.2.1⟩

/-- C10, refuted as stated, at `N = 10`. Whatever `double` values `std::exp`
and `std::log` return, the target probability the handler computes at the
x-coordinate of the line is not `1/10`, which is not a binary64 number. And
with `std::log` and `std::exp` correctly rounded, `std::log(1.0 / 10)` is
`-5184960683398421 / 2^51`, the line is at `x = 5184960683398421 / 2^51`,
`std::exp(-x)` is `7205759403792795 / 2^56`, and the handler computes
`p = 7205759403792795 / 2^56` but `others_avg = 7205759403792794 / 2^56`:
the two probabilities differ. -/
theorem random_line_is_uniform_baseline_counterexample :
    (¬ ∃ exp log : ℝ → ℝ, (∀ t : ℝ, roundDouble (exp t) = exp t) ∧
      ∃ pt ∈ (updateRandomDouble log 10 (MainWindow.new log)).m_randomLine,
        (mouseMoveEventDouble exp
          (updateRandomDouble log 10 (MainWindow.new log)).m_numClasses
          pt.x).p = 1 / ((10 : ℤ) : ℝ)) ∧
    |(-5184960683398421 / 2 ^ 51 : ℝ)
        - Real.log (roundDouble (1 / ((10 : ℤ) : ℝ)))| < 1 / 2 ^ 52 ∧
    |(7205759403792795 / 2 ^ 56 : ℝ)
        - Real.exp (-(5184960683398421 / 2 ^ 51))| < 1 / 2 ^ 57 ∧
    (updateRandomDouble (fun _ => (-5184960683398421 / 2 ^ 51 : ℝ)) 10
        (MainWindow.new (fun _ => (-5184960683398421 / 2 ^ 51 : ℝ)))).m_randomLine
      = [⟨5184960683398421 / 2 ^ 51, 0⟩, ⟨5184960683398421 / 2 ^ 51, 1⟩] ∧
    (mouseMoveEventDouble (fun _ => (7205759403792795 / 2 ^ 56 : ℝ)) 10
        (5184960683398421 / 2 ^ 51)).x = 5184960683398421 / 2 ^ 51 ∧
    (mouseMoveEventDouble (fun _ => (7205759403792795 / 2 ^ 56 : ℝ)) 10
        (5184960683398421 / 2 ^ 51)).p = 7205759403792795 / 2 ^ 56 ∧
    (mouseMoveEventDouble (fun _ => (7205759403792795 / 2 ^ 56 : ℝ)) 10
        (5184960683398421 / 2 ^ 51)).others_avg
      = 7205759403792794 / 2 ^ 56 ∧
    (mouseMoveEventDouble (fun _ => (7205759403792795 / 2 ^ 56 : ℝ)) 10
        (5184960683398421 / 2 ^ 51)).p
      ≠ (mouseMoveEventDouble (fun _ => (7205759403792795 / 2 ^ 56 : ℝ)) 10
        (5184960683398421 / 2 ^ 51)).others_avg := by
  have ho : (mouseMoveEventDouble (fun _ => (7205759403792795 / 2 ^ 56 : ℝ))
        10 (5184960683398421 / 2 ^ 51)).others_avg
      = 7205759403792794 / 2 ^ 56 := by
    rw [mouseMoveEventDouble_others_avg, roundDouble_one_sub_line_prob]
    have e : (((10 - 1 : ℤ)) : ℝ) = 9 := by norm_num
    rw [e, roundDouble_line_others_avg]
  refine ⟨?_, log_round_tenth_double_near, exp_line_double_near, ?_,
    clamp_line_ten, rfl, ho, ?_⟩
  · rintro ⟨exp, log, hexp, pt, -, hp⟩
    rw [mouseMoveEventDouble_p] at hp
    have h := hexp (-clamp pt.x 0 5)
    rw [hp] at h
    have e : ((10 : ℤ) : ℝ) = 10 := by norm_num
    rw [e, roundDouble_one_tenth] at h
    norm_num at h
  · rw [updateRandomDouble_randomLine]
    norm_num
  · rw [ho, mouseMoveEventDouble_p]
    norm_num

/-- C10, amended: for every `int` `N ≥ 2`, when `std::log` is accurate to
`2^-46` on `[2^-32, 1]` and `std::exp` to a relative `2^-50` on `[-5, 0]`, in
`double` arithmetic the line of `updateRandom(N)` is at `ln N` up to `2^-45`
and within the cross-hair's reach, `x ≤ 5`, exactly when `N ≤ 148`; for such
`N` a pointer at the x-coordinate of the line makes the handler compute `p`
within `2^-44` of `1/N` and `others_avg` within `2^-43` of `1/N`; for
`N ≥ 149` the line is beyond `x = 5` and the handler's `x` stays below it for
every pointer position. In exact real arithmetic the line is at `ln N`,
`ln N ≤ 5` exactly when `N ≤ 148`, and there `p = 1/N` and
`others_avg = 1/N` exactly. -/
theorem random_line_is_uniform_baseline_up_to_rounding (exp log : ℝ → ℝ)
    (hexp : ∀ t : ℝ, -5 ≤ t → t ≤ 0 →
      |exp t - Real.exp t| ≤ Real.exp t / 2 ^ 50)
    (hlog : ∀ y : ℝ, 1 / 2 ^ 32 ≤ y → y ≤ 1 →
      |log y - Real.log y| ≤ 1 / 2 ^ 46)
    (N : ℤ) (hN : 2 ≤ N) (hI : N ≤ 2147483647) (w : MainWindow ℝ) :
    (∀ pt ∈ (updateRandomDouble log N w).m_randomLine,
      |pt.x - Real.log N| ≤ 1 / 2 ^ 45 ∧ (pt.x ≤ 5 ↔ N ≤ 148)) ∧
    (N ≤ 148 → ∀ pt ∈ (updateRandomDouble log N w).m_randomLine,
      (mouseMoveEventDouble exp
          (updateRandomDouble log N w).m_numClasses pt.x).x = pt.x ∧
      |(mouseMoveEventDouble exp
          (updateRandomDouble log N w).m_numClasses pt.x).p - 1 / (N : ℝ)|
        ≤ 1 / 2 ^ 44 ∧
      |(mouseMoveEventDouble exp
          (updateRandomDouble log N w).m_numClasses pt.x).others_avg
          - 1 / (N : ℝ)| ≤ 1 / 2 ^ 43) ∧
    (149 ≤ N → ∀ pt ∈ (updateRandomDouble log N w).m_randomLine,
      5 < pt.x ∧ ∀ raw : ℝ, (mouseMoveEventDouble exp N raw).x < pt.x) ∧
    (Real.log N ≤ 5 ↔ N ≤ 148) ∧
    (N ≤ 148 → ∀ pt ∈ (updateRandom Real.log N w).m_randomLine,
      (mouseMoveEvent Real.exp
          (updateRandom Real.log N w).m_numClasses pt.x).x = pt.x ∧
      (mouseMoveEvent Real.exp
          (updateRandom Real.log N w).m_numClasses pt.x).p = 1 / (N : ℝ) ∧
      (mouseMoveEvent Real.exp
          (updateRandom Real.log N w).m_numClasses pt.x).others_avg
        = 1 / (N : ℝ)) := by
  have h2 : (2 : ℝ) ≤ (N : ℝ) := by exact_mod_cast hN
  have hpos : (0 : ℝ) < (N : ℝ) := by linarith
  have hline := line_x_near_log log hlog N hN hI
  have hx : ∀ pt ∈ (updateRandomDouble log N w).m_randomLine,
      pt.x = -log (roundDouble (1 / (N : ℝ))) := by
    intro pt hpt
    rw [updateRandomDouble_randomLine] at hpt
    simp only [List.mem_cons, List.mem_singleton, List.not_mem_nil,
      or_false] at hpt
    rcases hpt with rfl | rfl <;> rfl
  have hreach := le_five_iff_of_near_log N hN _ hline
  obtain ⟨e1, e2, -⟩ := exact_random_line_baseline N hN w
  refine ⟨?_, ?_, ?_, e1, e2⟩
  · intro pt hpt
    rw [hx pt hpt]
    exact ⟨hline, hreach⟩
  · intro h148 pt hpt
    obtain ⟨hc, p0, p1, hp⟩ := target_prob_near_inv exp hexp N hN h148
      (-log (roundDouble (1 / (N : ℝ)))) hline
    have hs := (rounded_others_avg_bounds
      (exp (-(-log (roundDouble (1 / (N : ℝ)))))) N hN hI p0 p1).1
    have ho := others_avg_near_inv _ _ N hN hs hp
    rw [hx pt hpt, updateRandomDouble_numClasses, mouseMoveEventDouble_x,
      mouseMoveEventDouble_p, mouseMoveEventDouble_others_avg, hc]
    exact ⟨rfl, hp, ho⟩
  · intro h149 pt hpt
    have hgt : 5 < -log (roundDouble (1 / (N : ℝ))) := by
      by_contra hcon
      have := hreach.1 (not_lt.1 hcon)
      omega
    rw [hx pt hpt]
    refine ⟨hgt, fun raw => ?_⟩
    rw [mouseMoveEventDouble_x]
    exact lt_of_le_of_lt (clamp_zero_five_mem raw).2 hgt

theorem random_line_is_uniform_baseline_up_to_rounding_witness :
    (2 : ℤ) ≤ 10 ∧ (10 : ℤ) ≤ 2147483647 ∧
    (∀ t : ℝ, -5 ≤ t → t ≤ 0 →
      |Real.exp t - Real.exp t| ≤ Real.exp t / 2 ^ 50) ∧
    (∀ y : ℝ, 1 / 2 ^ 32 ≤ y → y ≤ 1 →
      |Real.log y - Real.log y| ≤ 1 / 2 ^ 46) ∧
    |(mouseMoveEventDouble Real.exp
        (updateRandomDouble Real.log 10
          (MainWindow.new Real.log)).m_numClasses
        (-Real.log (roundDouble (1 / ((10 : ℤ) : ℝ))))).p
        - 1 / ((10 : ℤ) : ℝ)| ≤ 1 / 2 ^ 44 ∧
    |(mouseMoveEventDouble Real.exp
        (updateRandomDouble Real.log 10
          (MainWindow.new Real.log)).m_numClasses
        (-Real.log (roundDouble (1 / ((10 : ℤ) : ℝ))))).others_avg
        - 1 / ((10 : ℤ) : ℝ)| ≤ 1 / 2 ^ 43 :=
  have hexp : ∀ t : ℝ, -5 ≤ t → t ≤ 0 →
      |Real.exp t - Real.exp t| ≤ Real.exp t / 2 ^ 50 := by
    intro t _ _
    rw [sub_self, abs_zero]
    exact div_nonneg (Real.exp_pos t).le (by norm_num)
  have hlog : ∀ y : ℝ, 1 / 2 ^ 32 ≤ y → y ≤ 1 →
      |Real.log y - Real.log y| ≤ 1 / 2 ^ 46 := by
    intro y _ _
    rw [sub_self, abs_zero]
    norm_num
  have h := random_line_is_uniform_baseline_up_to_rounding Real.exp Real.log
    hexp hlog 10 (by decide) (by decide) (MainWindow.new Real.log)
  have hp := h.2.1 (by decide)
    ⟨-Real.log (roundDouble (1 / ((10 : ℤ) : ℝ))), 0⟩
    (List.mem_cons_self _ _)
  ⟨by decide, by decide, hexp, hlog, hp.2.1, hp.2.2⟩

end CrossEntropyView
